import Mathlib

/-!
Verification development for `update_readme.py`, a script that derives a
consecutive-activity streak and a language-usage distribution from fetched
GitHub data and rewrites marker-delimited regions of a README file.

The Python functions are shallowly embedded:
* dates are integers (proleptic-Gregorian day ordinals, as produced by
  `datetime.date`; only their ordered additive structure matters);
* Python's unbounded `int` is `Int`;
* `float` percentages are modelled exactly as rationals, since every
  percentage in the code is the rational `bytes / total * 100`;
* Python's stable `list.sort(key=..., reverse=True)` is modelled by a stable
  descending insertion sort (`sortDesc`): a stable sort's output is uniquely
  determined by the key order and the input order, so any stable
  implementation is extensionally the same function;
* fallible dynamic code (dict lookups, `strptime`, comparisons on
  non-numbers) is embedded over a JSON-like value type `PyVal` in the
  `Except` monad further below.
-/

/-! ## Stable descending sort (models `sorted(..., reverse=True)` / `list.sort(reverse=True)`) -/

/-- Insert `x` into `l`, placing it before the first element whose key is
`≤ key x`.  Since `x` comes earlier in the original list than everything in
`l` (the sort folds from the right), this is exactly stable descending
order: among equal keys the earlier element stays first. -/
def insertDesc {α β : Type} [LinearOrder β] (key : α → β) (x : α) : List α → List α
  | [] => [x]
  | y :: ys => if key y ≤ key x then x :: y :: ys else y :: insertDesc key x ys

/-- Stable descending insertion sort by `key`. -/
def sortDesc {α β : Type} [LinearOrder β] (key : α → β) : List α → List α
  | [] => []
  | x :: xs => insertDesc key x (sortDesc key xs)

theorem insertDesc_perm {α β : Type} [LinearOrder β] (key : α → β) (x : α) (l : List α) :
    List.Perm (insertDesc key x l) (x :: l) := by
  induction l with
  | nil => simp [insertDesc]
  | cons y ys ih =>
      by_cases h : key y ≤ key x
      · simp [insertDesc, h]
      · simpa [insertDesc, h] using ((ih.cons y).trans (List.Perm.swap x y ys))

theorem sortDesc_perm {α β : Type} [LinearOrder β] (key : α → β) (l : List α) :
    List.Perm (sortDesc key l) l := by
  induction l with
  | nil => simp [sortDesc]
  | cons x xs ih => exact (insertDesc_perm key x (sortDesc key xs)).trans (ih.cons x)

theorem mem_insertDesc {α β : Type} [LinearOrder β] (key : α → β) (x a : α) (l : List α) :
    a ∈ insertDesc key x l ↔ a = x ∨ a ∈ l := by
  have := (insertDesc_perm key x l).mem_iff (a := a)
  simpa using this

theorem insertDesc_pairwise_le {α β : Type} [LinearOrder β] (key : α → β) (x : α)
    (l : List α) (h : l.Pairwise (fun a b => key b ≤ key a)) :
    (insertDesc key x l).Pairwise (fun a b => key b ≤ key a) := by
  induction l with
  | nil => simp [insertDesc]
  | cons y ys ih =>
      rw [List.pairwise_cons] at h
      by_cases hxy : key y ≤ key x
      · rw [insertDesc, if_pos hxy]
        refine List.pairwise_cons.mpr ⟨?_, List.pairwise_cons.mpr ⟨h.1, h.2⟩⟩
        intro b hb
        rcases List.mem_cons.mp hb with hb | hb
        · simpa [hb] using hxy
        · exact le_trans (h.1 b hb) hxy
      · rw [insertDesc, if_neg hxy]
        refine List.pairwise_cons.mpr ⟨?_, ih h.2⟩
        intro b hb
        rcases (mem_insertDesc key x b ys).mp hb with hb | hb
        · subst hb; exact le_of_not_le hxy
        · exact h.1 b hb

theorem sortDesc_pairwise_le {α β : Type} [LinearOrder β] (key : α → β) (l : List α) :
    (sortDesc key l).Pairwise (fun a b => key b ≤ key a) := by
  induction l with
  | nil => simp [sortDesc]
  | cons x xs ih => exact insertDesc_pairwise_le key x (sortDesc key xs) ih

/-- Stability, seen through key classes: filtering the sorted list to one key
value yields the same sequence as filtering the input, when the inserted
element has a different key. -/
theorem insertDesc_filter_ne {α β : Type} [LinearOrder β] (key : α → β) (x : α)
    (l : List α) (v : β) (hx : key x ≠ v) :
    (insertDesc key x l).filter (fun a => decide (key a = v)) =
      l.filter (fun a => decide (key a = v)) := by
  induction l with
  | nil => simp [insertDesc, hx]
  | cons y ys ih =>
      by_cases hxy : key y ≤ key x
      · rw [insertDesc, if_pos hxy]
        simp [List.filter, hx]
      · rw [insertDesc, if_neg hxy]
        by_cases hy : key y = v
        · simp only [List.filter, hy, decide_True, ih]
        · simp only [List.filter, hy, decide_False, ih]

theorem insertDesc_filter_eq {α β : Type} [LinearOrder β] (key : α → β) (x : α)
    (l : List α) (v : β) (hx : key x = v) :
    (insertDesc key x l).filter (fun a => decide (key a = v)) =
      x :: l.filter (fun a => decide (key a = v)) := by
  induction l with
  | nil => simp [insertDesc, hx]
  | cons y ys ih =>
      by_cases hxy : key y ≤ key x
      · rw [insertDesc, if_pos hxy]
        simp [List.filter, hx]
      · have hy : key y ≠ v := by
          intro hv
          exact hxy (le_of_eq (hv.trans hx.symm))
        rw [insertDesc, if_neg hxy]
        simp only [List.filter, hy, decide_False, ih]

/-- A stable sort preserves the relative order inside every key class:
ties are broken by the order of first appearance in the input. -/
theorem sortDesc_filter {α β : Type} [LinearOrder β] (key : α → β) (l : List α) (v : β) :
    (sortDesc key l).filter (fun a => decide (key a = v)) =
      l.filter (fun a => decide (key a = v)) := by
  induction l with
  | nil => simp [sortDesc]
  | cons x xs ih =>
      by_cases hx : key x = v
      · rw [sortDesc, insertDesc_filter_eq key x _ v hx, ih]
        simp [List.filter, hx]
      · rw [sortDesc, insertDesc_filter_ne key x _ v hx, ih]
        simp [List.filter, hx]

/-! ## Streak calculator core (`calculate_streak`, src/update_readme.py lines 89-108)

A parsed activity day is a pair `(date, count)`: the date as an integer day
ordinal, the contribution count as an integer.  `streakLoop` is a literal
transcription of the `for i, day in enumerate(all_days)` loop (lines 94-106):

  for i, day in enumerate(all_days):
      expected_date = today - timedelta(days=i)
      if i == 0 and day["date"] == today and day["count"] == 0:
          continue
      if day["date"] == expected_date or (i == 0 and day["date"] == today - timedelta(days=1)):
          if day["count"] > 0: streak += 1
          else: break
      elif day["date"] < expected_date:
          break

`break` returns the streak accumulated so far, so in the functional form a
counted day contributes `1 +` the rest and every `break` contributes `0`. -/

def streakLoop (today : ℤ) : ℕ → List (ℤ × ℤ) → ℤ
  | _, [] => 0
  | i, (d, c) :: rest =>
    if i = 0 ∧ d = today ∧ c = 0 then streakLoop today (i + 1) rest
    else if d = today - i ∨ (i = 0 ∧ d = today - 1) then
      if 0 < c then 1 + streakLoop today (i + 1) rest else 0
    else if d < today - i then 0
    else streakLoop today (i + 1) rest

/-- Lines 89-107 of `calculate_streak`: sort the collected days by date,
newest first (`all_days.sort(key=lambda x: x["date"], reverse=True)`), then
run the enumerated loop.  The `totalContributions` passthrough and the
dynamic field lookups are modelled separately (`calculate_streak` below on
`PyVal` payloads); this is the streak computation itself on parsed days. -/
def calculate_streak_core (today : ℤ) (days : List (ℤ × ℤ)) : ℤ :=
  streakLoop today 0 (sortDesc (fun p => p.1) days)

/-- The plain backward walk: starting at target date `T`, count entries while
the head entry is exactly the expected date with a positive count. -/
def walk (T : ℤ) : List (ℤ × ℤ) → ℤ
  | [] => 0
  | (d, c) :: rest => if d = T ∧ 0 < c then 1 + walk (T - 1) rest else 0

/-- What `streakLoop` computes at index 0 on a strictly-descending list of
days bounded by `today`, case by case on the most recent day. -/
def streakSpec (today : ℤ) : List (ℤ × ℤ) → ℤ
  | [] => 0
  | (d, c) :: rest =>
    if d = today then
      (if c = 0 then walk (today - 1) rest else walk today ((d, c) :: rest))
    else if d = today - 1 then (if 0 < c then 1 else 0)
    else 0

theorem streakLoop_eq_walk (today : ℤ) :
    ∀ (l : List (ℤ × ℤ)) (i : ℕ), 1 ≤ i →
      l.Pairwise (fun a b => b.1 < a.1) →
      (∀ p ∈ l, p.1 ≤ today - i) →
      streakLoop today i l = walk (today - i) l := by
  intro l
  induction l with
  | nil => intro i _ _ _; rfl
  | cons p rest ih =>
      rintro i hi hpw hle
      obtain ⟨d, c⟩ := p
      rw [List.pairwise_cons] at hpw
      have hd : d ≤ today - i := hle (d, c) (List.mem_cons_self _ _)
      have hi0 : ¬(i = 0 ∧ d = today ∧ c = 0) := by
        rintro ⟨h0, -⟩; omega
      by_cases hde : d = today - i
      · have hcond : d = today - i ∨ (i = 0 ∧ d = today - 1) := Or.inl hde
        by_cases hc : 0 < c
        · have hrest : ∀ p ∈ rest, p.1 ≤ today - (i + 1 : ℕ) := by
            intro q hq
            have := hpw.1 q hq
            push_cast
            omega
          rw [streakLoop, if_neg hi0, if_pos hcond, if_pos hc,
            ih (i + 1) (by omega) hpw.2 hrest]
          rw [walk, if_pos ⟨hde, hc⟩]
          have : today - (i + 1 : ℕ) = today - i - 1 := by push_cast; ring
          rw [this]
        · rw [streakLoop, if_neg hi0, if_pos hcond, if_neg hc,
            walk, if_neg (by rintro ⟨-, h⟩; exact hc h)]
      · have hlt : d < today - i := lt_of_le_of_ne hd hde
        have hcond : ¬(d = today - i ∨ (i = 0 ∧ d = today - 1)) := by
          rintro (h | ⟨h0, -⟩)
          · exact hde h
          · omega
        rw [streakLoop, if_neg hi0, if_neg hcond, if_pos hlt,
          walk, if_neg (by rintro ⟨h, -⟩; exact hde h)]

/-- Characterization of the full loop (index 0) on a strictly-descending
list of days bounded by `today`. -/
theorem streakLoop_zero_eq_spec (today : ℤ) (s : List (ℤ × ℤ))
    (hpw : s.Pairwise (fun a b => b.1 < a.1))
    (hle : ∀ p ∈ s, p.1 ≤ today) :
    streakLoop today 0 s = streakSpec today s := by
  match s with
  | [] => rfl
  | (d, c) :: rest =>
      rw [List.pairwise_cons] at hpw
      have hd : d ≤ today := hle (d, c) (List.mem_cons_self _ _)
      have hrest1 : ∀ p ∈ rest, p.1 ≤ today - (1 : ℕ) := by
        intro q hq
        have := hpw.1 q hq
        push_cast
        omega
      by_cases hdt : d = today
      · by_cases hc0 : c = 0
        · rw [streakLoop, if_pos ⟨rfl, hdt, hc0⟩,
            streakLoop_eq_walk today rest 1 le_rfl hpw.2 hrest1]
          rw [streakSpec, if_pos hdt, if_pos hc0]
          norm_num
        · have hcond : d = today - (0 : ℕ) ∨ ((0 : ℕ) = 0 ∧ d = today - 1) := by
            left; rw [hdt]; norm_num
          rw [streakLoop, if_neg (by rintro ⟨-, -, h⟩; exact hc0 h), if_pos hcond]
          rw [streakSpec, if_pos hdt, if_neg hc0]
          by_cases hc : 0 < c
          · rw [if_pos hc, streakLoop_eq_walk today rest 1 le_rfl hpw.2 hrest1,
              walk, if_pos ⟨hdt, hc⟩]
            norm_num
          · rw [if_neg hc, walk, if_neg (by rintro ⟨-, h⟩; exact hc h)]
      · by_cases hdy : d = today - 1
        · have hcond : d = today - (0 : ℕ) ∨ ((0 : ℕ) = 0 ∧ d = today - 1) :=
            Or.inr ⟨rfl, hdy⟩
          rw [streakLoop, if_neg (by rintro ⟨-, h, -⟩; exact hdt h), if_pos hcond]
          rw [streakSpec, if_neg hdt, if_pos hdy]
          by_cases hc : 0 < c
          · rw [if_pos hc, if_pos hc,
              streakLoop_eq_walk today rest 1 le_rfl hpw.2 hrest1]
            have : walk (today - (1 : ℕ)) rest = 0 := by
              match rest with
              | [] => rfl
              | (d', c') :: r' =>
                  have hd' : d' < d := hpw.1 (d', c') (List.mem_cons_self _ _)
                  rw [walk, if_neg (by push_cast; rintro ⟨h, -⟩; omega)]
            rw [this]
            norm_num
          · rw [if_neg hc, if_neg hc]
        · have hlt : d < today - (0 : ℕ) := by push_cast; omega
          have hcond : ¬(d = today - (0 : ℕ) ∨ ((0 : ℕ) = 0 ∧ d = today - 1)) := by
            push_cast
            rintro (h | ⟨-, h⟩)
            · omega
            · exact hdy h
          rw [streakLoop, if_neg (by rintro ⟨-, h, -⟩; exact hdt h), if_neg hcond,
            if_pos hlt, streakSpec, if_neg hdt, if_neg hdy]

/-- Days with pairwise distinct dates that are sorted non-increasingly are
sorted strictly decreasingly. -/
theorem pairwise_lt_of_le_ne {s : List (ℤ × ℤ)}
    (h1 : s.Pairwise (fun a b => b.1 ≤ a.1))
    (h2 : s.Pairwise (fun a b => a.1 ≠ b.1)) :
    s.Pairwise (fun a b => b.1 < a.1) := by
  induction s with
  | nil => exact List.Pairwise.nil
  | cons x xs ih =>
      rw [List.pairwise_cons] at h1 h2 ⊢
      exact ⟨fun b hb => lt_of_le_of_ne (h1.1 b hb) (h2.1 b hb).symm,
        ih h1.2 h2.2⟩

/-- In a strictly-descending list of days bounded by `T`, an entry dated `T`
can only be the head. -/
theorem head_of_mem_max (T c : ℤ) (s : List (ℤ × ℤ))
    (hpw : s.Pairwise (fun a b => b.1 < a.1))
    (hle : ∀ p ∈ s, p.1 ≤ T)
    (hmem : (T, c) ∈ s) :
    ∃ rest, s = (T, c) :: rest := by
  match s with
  | [] => cases hmem
  | (d0, c0) :: rest =>
      rw [List.pairwise_cons] at hpw
      rcases List.mem_cons.mp hmem with h | h
      · exact ⟨rest, by rw [← h]⟩
      · have h1 : (T : ℤ) < d0 := hpw.1 (T, c) h
        have h2 : d0 ≤ T := hle (d0, c0) (List.mem_cons_self _ _)
        omega

/-- The backward walk on a strictly-descending, `T`-bounded list of days
counts exactly `N + 1` when the entry for `T` is positive, the entries for
the `N` preceding days are present and positive, and day `T - (N+1)` is
recorded as zero or absent. -/
theorem walk_run :
    ∀ (N : ℕ) (T : ℤ) (s : List (ℤ × ℤ)),
      s.Pairwise (fun a b => b.1 < a.1) →
      (∀ p ∈ s, p.1 ≤ T) →
      (∃ c, (T, c) ∈ s ∧ 0 < c) →
      (∀ j : ℕ, 1 ≤ j → j ≤ N → ∃ c, (T - (j : ℤ), c) ∈ s ∧ 0 < c) →
      (∀ c : ℤ, (T - ((N : ℤ) + 1), c) ∈ s → c = 0) →
      walk T s = (N : ℤ) + 1 := by
  intro N
  induction N with
  | zero =>
      rintro T s hpw hle ⟨c, hmem, hc⟩ hrun hstop
      obtain ⟨rest, rfl⟩ := head_of_mem_max T c s hpw hle hmem
      rw [List.pairwise_cons] at hpw
      rw [walk, if_pos ⟨rfl, hc⟩]
      have hz : walk (T - 1) rest = 0 := by
        match rest with
        | [] => rfl
        | (d1, c1) :: r =>
            by_cases hd1 : d1 = T - 1
            · have hc1 : c1 = 0 := by
                refine hstop c1 ?_
                have he : T - (((0 : ℕ) : ℤ) + 1) = d1 := by push_cast; omega
                rw [he]
                exact List.mem_cons_of_mem _ (List.mem_cons_self _ _)
              rw [walk, if_neg (by rintro ⟨-, h⟩; omega)]
            · rw [walk, if_neg (by rintro ⟨h, -⟩; exact hd1 h)]
      rw [hz]
      norm_num
  | succ n ih =>
      rintro T s hpw hle ⟨c, hmem, hc⟩ hrun hstop
      obtain ⟨rest, rfl⟩ := head_of_mem_max T c s hpw hle hmem
      rw [List.pairwise_cons] at hpw
      rw [walk, if_pos ⟨rfl, hc⟩]
      have hmem_rest : ∀ (d' c' : ℤ), d' ≠ T → ((d', c') ∈ (T, c) :: rest) →
          (d', c') ∈ rest := by
        intro d' c' hne hm
        rcases List.mem_cons.mp hm with h | h
        · cases h; exact absurd rfl hne
        · exact h
      have h1 : walk (T - 1) rest = (n : ℤ) + 1 := by
        refine ih (T - 1) rest hpw.2 ?_ ?_ ?_ ?_
        · intro p hp
          have := hpw.1 p hp
          omega
        · obtain ⟨c', hm, hp⟩ := hrun 1 le_rfl (by omega)
          refine ⟨c', ?_, hp⟩
          have he : T - ((1 : ℕ) : ℤ) = T - 1 := by norm_num
          rw [he] at hm
          exact hmem_rest _ _ (by omega) hm
        · intro j hj1 hjn
          obtain ⟨c', hm, hp⟩ := hrun (j + 1) (by omega) (by omega)
          refine ⟨c', ?_, hp⟩
          have he : T - 1 - (j : ℤ) = T - ((j + 1 : ℕ) : ℤ) := by push_cast; ring
          rw [he]
          exact hmem_rest _ _ (by push_cast; omega) hm
        · intro c' hm
          refine hstop c' ?_
          have he : T - ((n : ℤ) + 1 + 1) = T - 1 - ((n : ℤ) + 1) := by ring
          rw [show ((n + 1 : ℕ) : ℤ) = (n : ℤ) + 1 by push_cast; ring, he]
          exact List.mem_cons_of_mem _ hm
      rw [h1]
      push_cast
      ring

/-- C1: counterexample record for the code-bug finding.  The claim says a
zero-count "today" and an absent "today" behave identically: with yesterday
and the day before both positive and the day before those zero, the streak
should be 2 in both cases.  The code agrees for the zero-count-today
calendar but returns 1 for the absent-today calendar: the special case
`i == 0 and day["date"] == today - timedelta(days=1)` counts yesterday at
index 0, after which `expected_date = today - i` is one day ahead of the
remaining (older) entries, so the very next iteration hits the
`day["date"] < expected_date` break.  Here `today = 0` and dates are
day-offsets from today. -/
theorem streak_missing_today_capped_at_one :
    calculate_streak_core 0 [(-1, 1), (-2, 1), (-3, 0)] = 1 ∧
    calculate_streak_core 0 [(0, 0), (-1, 1), (-2, 1), (-3, 0)] = 2 := by
  exact ⟨by decide, by decide⟩

/-- C2: for a calendar with at most one entry per date, all dates in the
trailing window up to `today`, where today's entry is positive, the `N` days
immediately before today are all recorded positive, and day `N + 1` before
today is recorded zero or missing, `calculate_streak` returns exactly
`N + 1`. -/
theorem streak_counts_run_from_today (today : ℤ) (days : List (ℤ × ℤ)) (N : ℕ)
    (hnodup : (days.map Prod.fst).Nodup)
    (hle : ∀ p ∈ days, p.1 ≤ today)
    (htoday : ∃ c, (today, c) ∈ days ∧ 0 < c)
    (hrun : ∀ j : ℕ, 1 ≤ j → j ≤ N → ∃ c, (today - (j : ℤ), c) ∈ days ∧ 0 < c)
    (hstop : ∀ c : ℤ, (today - ((N : ℤ) + 1), c) ∈ days → c = 0) :
    calculate_streak_core today days = (N : ℤ) + 1 := by
  have hperm := sortDesc_perm (fun p : ℤ × ℤ => p.1) days
  have hpwle := sortDesc_pairwise_le (fun p : ℤ × ℤ => p.1) days
  have hnds : ((sortDesc (fun p : ℤ × ℤ => p.1) days).map Prod.fst).Nodup :=
    ((hperm.map Prod.fst).nodup_iff).mpr hnodup
  have hne : (sortDesc (fun p : ℤ × ℤ => p.1) days).Pairwise
      (fun a b => a.1 ≠ b.1) := List.pairwise_map.mp hnds
  have hpw : (sortDesc (fun p : ℤ × ℤ => p.1) days).Pairwise
      (fun a b => b.1 < a.1) := pairwise_lt_of_le_ne hpwle hne
  have hles : ∀ p ∈ sortDesc (fun p : ℤ × ℤ => p.1) days, p.1 ≤ today :=
    fun p hp => hle p (hperm.mem_iff.mp hp)
  obtain ⟨c0, hc0m, hc0p⟩ := htoday
  have hc0s : (today, c0) ∈ sortDesc (fun p : ℤ × ℤ => p.1) days :=
    hperm.mem_iff.mpr hc0m
  have hwalk : walk today (sortDesc (fun p : ℤ × ℤ => p.1) days) = (N : ℤ) + 1 := by
    refine walk_run N today _ hpw hles ⟨c0, hc0s, hc0p⟩ ?_ ?_
    · intro j h1 h2
      obtain ⟨c', hm, hp⟩ := hrun j h1 h2
      exact ⟨c', hperm.mem_iff.mpr hm, hp⟩
    · intro c' hm
      exact hstop c' (hperm.mem_iff.mp hm)
  obtain ⟨rest, hsr⟩ := head_of_mem_max today c0 _ hpw hles hc0s
  have hspec := streakLoop_zero_eq_spec today _ hpw hles
  show streakLoop today 0 (sortDesc (fun p : ℤ × ℤ => p.1) days) = (N : ℤ) + 1
  rw [hspec, hsr, streakSpec, if_pos rfl, if_neg (by omega), ← hsr, hwalk]

/-- C2 witness: `today = 10`, entries `(10, 2), (9, 1), (8, 0)`, `N = 1`:
today positive, one positive day before it, day 2 before recorded zero;
the streak is 2. -/
theorem streak_counts_run_from_today_witness :
    calculate_streak_core 10 [(10, 2), (9, 1), (8, 0)] = 2 := by
  have h := streak_counts_run_from_today 10 [(10, 2), (9, 1), (8, 0)] 1
    (by decide) (by decide) ⟨2, by decide, by decide⟩
    (by
      intro j h1 h2
      have hj : j = 1 := by omega
      subst hj
      exact ⟨1, by decide, by decide⟩)
    (by
      intro c hc
      have he : (10 : ℤ) - (((1 : ℕ) : ℤ) + 1) = 8 := by norm_num
      rw [he] at hc
      simp only [List.mem_cons, List.not_mem_nil, or_false, Prod.mk.injEq] at hc
      rcases hc with ⟨h1, -⟩ | ⟨h1, -⟩ | ⟨-, h2⟩
      · omega
      · omega
      · exact h2)
  simpa using h

/-- The backward walk never counts past a date `g` that has no entry: it
counts at most the `T - g` days strictly newer than `g`. -/
theorem walk_bound (g : ℤ) :
    ∀ (T : ℤ) (l : List (ℤ × ℤ)), g ≤ T → (∀ p ∈ l, p.1 ≠ g) →
      walk T l ≤ T - g := by
  intro T l
  induction l generalizing T with
  | nil =>
      intro hgT _
      rw [walk]
      omega
  | cons p rest ih =>
      intro hgT hfresh
      obtain ⟨d, c⟩ := p
      by_cases hdc : d = T ∧ 0 < c
      · rw [walk, if_pos hdc]
        have hdg : d ≠ g := hfresh (d, c) (List.mem_cons_self _ _)
        have hg1 : g ≤ T - 1 := by omega
        have h2 := ih (T - 1) hg1 (fun q hq => hfresh q (List.mem_cons_of_mem _ hq))
        omega
      · rw [walk, if_neg hdc]
        omega

/-- Inserting an entry `(g, 0)` for a date `g` that had no entry does not
change the backward walk from any `T ≥ g`: a zero-count day and a missing
day stop the walk at the same place. -/
theorem walk_insert_zero (g : ℤ) :
    ∀ (T : ℤ) (l : List (ℤ × ℤ)), g ≤ T → (∀ p ∈ l, p.1 ≠ g) →
      walk T (insertDesc (fun p : ℤ × ℤ => p.1) (g, 0) l) = walk T l := by
  intro T l
  induction l generalizing T with
  | nil =>
      intro hgT _
      simp only [insertDesc, walk]
      split_ifs with h
      · exact absurd h.2 (lt_irrefl 0)
      · rfl
  | cons p rest ih =>
      intro hgT hfresh
      obtain ⟨d, c⟩ := p
      have hdg : d ≠ g := hfresh (d, c) (List.mem_cons_self _ _)
      by_cases hdle : d ≤ g
      · rw [insertDesc, if_pos hdle, walk, if_neg (by rintro ⟨-, h⟩; omega),
          walk, if_neg (by rintro ⟨h, -⟩; omega)]
      · rw [insertDesc, if_neg hdle]
        by_cases hdc : d = T ∧ 0 < c
        · have hg1 : g ≤ T - 1 := by
            rcases hdc with ⟨h, -⟩
            omega
          rw [walk, if_pos hdc, walk, if_pos hdc,
            ih (T - 1) hg1 (fun q hq => hfresh q (List.mem_cons_of_mem _ hq))]
        · rw [walk, if_neg hdc, walk, if_neg hdc]

/-- Inserting an entry with a fresh date keeps the list strictly
descending. -/
theorem insertDesc_pairwise_lt (g : ℤ) (l : List (ℤ × ℤ))
    (hpw : l.Pairwise (fun a b => b.1 < a.1))
    (hfresh : ∀ p ∈ l, p.1 ≠ g) :
    (insertDesc (fun p : ℤ × ℤ => p.1) (g, 0) l).Pairwise
      (fun a b => b.1 < a.1) := by
  induction l with
  | nil => simp [insertDesc]
  | cons y ys ih =>
      obtain ⟨d, c⟩ := y
      rw [List.pairwise_cons] at hpw
      have hdg : d ≠ g := hfresh (d, c) (List.mem_cons_self _ _)
      by_cases hdle : d ≤ g
      · rw [insertDesc, if_pos hdle]
        refine List.pairwise_cons.mpr ⟨?_, List.pairwise_cons.mpr hpw⟩
        intro b hb
        rcases List.mem_cons.mp hb with hb | hb
        · rw [hb]
          show d < g
          omega
        · have := hpw.1 b hb
          show b.1 < g
          omega
      · rw [insertDesc, if_neg hdle]
        refine List.pairwise_cons.mpr
          ⟨?_, ih hpw.2 (fun q hq => hfresh q (List.mem_cons_of_mem _ hq))⟩
        intro b hb
        rcases (mem_insertDesc _ _ b ys).mp hb with hb | hb
        · rw [hb]
          show g < d
          omega
        · exact hpw.1 b hb

/-- C3: in a calendar with at most one entry per date, all dates at most
`today`, and no entry for a date `g` strictly before today, (a) the streak
never counts a day older than the gap — it is at most the `today - g` days
strictly newer than `g` — and (b) recording the gap day explicitly with
count zero gives exactly the same streak as leaving it missing. -/
theorem streak_gap_terminates (today g : ℤ) (days : List (ℤ × ℤ))
    (hnodup : (days.map Prod.fst).Nodup)
    (hle : ∀ p ∈ days, p.1 ≤ today)
    (hg : g < today)
    (hmiss : ∀ p ∈ days, p.1 ≠ g) :
    calculate_streak_core today days ≤ today - g ∧
    calculate_streak_core today ((g, 0) :: days) =
      calculate_streak_core today days := by
  have hperm := sortDesc_perm (fun p : ℤ × ℤ => p.1) days
  have hpwle := sortDesc_pairwise_le (fun p : ℤ × ℤ => p.1) days
  have hnds : ((sortDesc (fun p : ℤ × ℤ => p.1) days).map Prod.fst).Nodup :=
    ((hperm.map Prod.fst).nodup_iff).mpr hnodup
  have hne : (sortDesc (fun p : ℤ × ℤ => p.1) days).Pairwise
      (fun a b => a.1 ≠ b.1) := List.pairwise_map.mp hnds
  have hpw : (sortDesc (fun p : ℤ × ℤ => p.1) days).Pairwise
      (fun a b => b.1 < a.1) := pairwise_lt_of_le_ne hpwle hne
  have hles : ∀ p ∈ sortDesc (fun p : ℤ × ℤ => p.1) days, p.1 ≤ today :=
    fun p hp => hle p (hperm.mem_iff.mp hp)
  have hfresh : ∀ p ∈ sortDesc (fun p : ℤ × ℤ => p.1) days, p.1 ≠ g :=
    fun p hp => hmiss p (hperm.mem_iff.mp hp)
  have hspec := streakLoop_zero_eq_spec today _ hpw hles
  have hpw' := insertDesc_pairwise_lt g _ hpw hfresh
  have hles' : ∀ p ∈ insertDesc (fun p : ℤ × ℤ => p.1) (g, 0)
      (sortDesc (fun p : ℤ × ℤ => p.1) days), p.1 ≤ today := by
    intro p hp
    rcases (mem_insertDesc _ _ p _).mp hp with hp | hp
    · rw [hp]
      show g ≤ today
      omega
    · exact hles p hp
  have hspec' := streakLoop_zero_eq_spec today _ hpw' hles'
  constructor
  · show streakLoop today 0 (sortDesc (fun p : ℤ × ℤ => p.1) days) ≤ today - g
    rw [hspec]
    match hs : sortDesc (fun p : ℤ × ℤ => p.1) days, hpw, hles, hfresh with
    | [], _, _, _ =>
        rw [streakSpec]
        omega
    | (d, c) :: rest, hpw2, hles2, hfresh2 =>
        rw [List.pairwise_cons] at hpw2
        have hrest_fresh : ∀ q ∈ rest, q.1 ≠ g :=
          fun q hq => hfresh2 q (List.mem_cons_of_mem _ hq)
        by_cases hdt : d = today
        · rw [streakSpec, if_pos hdt]
          by_cases hc0 : c = 0
          · rw [if_pos hc0]
            have := walk_bound g (today - 1) rest (by omega) hrest_fresh
            omega
          · rw [if_neg hc0]
            have := walk_bound g today ((d, c) :: rest) (by omega) hfresh2
            omega
        · by_cases hdy : d = today - 1
          · rw [streakSpec, if_neg hdt, if_pos hdy]
            split_ifs
            · omega
            · omega
          · rw [streakSpec, if_neg hdt, if_neg hdy]
            omega
  · show streakLoop today 0
        (sortDesc (fun p : ℤ × ℤ => p.1) ((g, 0) :: days)) =
      streakLoop today 0 (sortDesc (fun p : ℤ × ℤ => p.1) days)
    rw [sortDesc, hspec', hspec]
    match hs : sortDesc (fun p : ℤ × ℤ => p.1) days, hpw, hles, hfresh with
    | [], _, _, _ =>
        rw [insertDesc]
        have h1 : streakSpec today [(g, 0)] = 0 := by
          rw [streakSpec, if_neg (by omega : ¬g = today)]
          by_cases hgy : g = today - 1
          · rw [if_pos hgy, if_neg (by norm_num : ¬(0 : ℤ) < 0)]
          · rw [if_neg hgy]
        rw [h1, streakSpec]
    | (d, c) :: rest, hpw2, hles2, hfresh2 =>
        rw [List.pairwise_cons] at hpw2
        have hdg : d ≠ g := hfresh2 (d, c) (List.mem_cons_self _ _)
        have hdles : d ≤ today := hles2 (d, c) (List.mem_cons_self _ _)
        have hrest_fresh : ∀ q ∈ rest, q.1 ≠ g :=
          fun q hq => hfresh2 q (List.mem_cons_of_mem _ hq)
        by_cases hdle : d ≤ g
        · rw [insertDesc, if_pos hdle]
          rw [streakSpec, if_neg (by omega : ¬g = today)]
          rw [streakSpec, if_neg (by omega : ¬d = today),
            if_neg (by omega : ¬d = today - 1)]
          by_cases hgy : g = today - 1
          · rw [if_pos hgy, if_neg (by norm_num)]
          · rw [if_neg hgy]
        · rw [insertDesc, if_neg hdle]
          by_cases hdt : d = today
          · rw [streakSpec, if_pos hdt, streakSpec, if_pos hdt]
            by_cases hc0 : c = 0
            · rw [if_pos hc0, if_pos hc0,
                walk_insert_zero g (today - 1) rest (by omega) hrest_fresh]
            · rw [if_neg hc0, if_neg hc0]
              have h1 : (d, c) :: insertDesc (fun p : ℤ × ℤ => p.1) (g, 0) rest =
                  insertDesc (fun p : ℤ × ℤ => p.1) (g, 0) ((d, c) :: rest) := by
                rw [insertDesc, if_neg hdle]
              rw [h1, walk_insert_zero g today ((d, c) :: rest) (by omega) hfresh2]
          · by_cases hdy : d = today - 1
            · rw [streakSpec, if_neg hdt, if_pos hdy,
                streakSpec, if_neg hdt, if_pos hdy]
            · rw [streakSpec, if_neg hdt, if_neg hdy,
                streakSpec, if_neg hdt, if_neg hdy]

/-- C3 witness: `today = 5`, gap at `g = 2`, entries for days 5, 4, 3
positive and an old positive entry at day 0.  The streak is bounded by
`today - g = 3` and inserting `(2, 0)` leaves it unchanged. -/
theorem streak_gap_terminates_witness :
    calculate_streak_core 5 [(5, 1), (4, 2), (3, 1), (0, 9)] ≤ 3 ∧
    calculate_streak_core 5 ((2, 0) :: [(5, 1), (4, 2), (3, 1), (0, 9)]) =
      calculate_streak_core 5 [(5, 1), (4, 2), (3, 1), (0, 9)] := by
  have h := streak_gap_terminates 5 2 [(5, 1), (4, 2), (3, 1), (0, 9)]
    (by decide) (by decide) (by decide) (by decide)
  exact ⟨h.1, h.2⟩

/-! ## Language aggregator (`get_language_stats`, src/update_readme.py lines 121-140) -/

/-- `language_bytes[name] += size` on a `defaultdict(int)`, represented as an
association list in insertion (= first-encounter) order, which is the
iteration order of a Python dict. -/
def addSize : List (String × ℕ) → String → ℕ → List (String × ℕ)
  | [], name, size => [(name, size)]
  | (m, t) :: rest, name, size =>
    if m = name then (m, t + size) :: rest else (m, t) :: addSize rest name size

/-- Lines 122-127: accumulate byte sizes per language across all
repositories; a repository is the list of its `(language name, byte size)`
edges.  `if repo["languages"]["edges"]:` skips repositories with an empty
(falsy) edge list. -/
def accumulate_languages (repos : List (List (String × ℕ))) : List (String × ℕ) :=
  repos.foldl
    (fun acc repo =>
      if repo.isEmpty then acc
      else repo.foldl (fun a p => addSize a p.1 p.2) acc)
    []

/-- Lines 121-140 of `get_language_stats` on parsed repository data:
accumulate, sort descending by accumulated byte size (Python's stable
`sorted(..., reverse=True)`), return `{}` when the grand total is zero, and
otherwise build the `language_stats` dict in sorted order with each
percentage the exact rational `(bytes_count / total_bytes) * 100`. -/
def get_language_stats_core (repos : List (List (String × ℕ))) : List (String × ℚ) :=
  let language_bytes := accumulate_languages repos
  let sorted_langs := sortDesc (fun p : String × ℕ => p.2) language_bytes
  let total_bytes := (language_bytes.map Prod.snd).sum
  if total_bytes = 0 then []
  else sorted_langs.map (fun p => (p.1, ((p.2 : ℚ) / (total_bytes : ℚ)) * 100))

/-- C4: with accumulated sizes A: 300, B: 100, C: 0 the returned
distribution is A: 75%, B: 25%, C: 0% — the zero-size language is kept with
share 0, because nothing filters zero-size entries. -/
theorem language_stats_keeps_zero_size_entries :
    get_language_stats_core [[("A", 300), ("B", 100), ("C", 0)]] =
      [("A", 75), ("B", 25), ("C", 0)] := by
  have hacc : accumulate_languages [[("A", 300), ("B", 100), ("C", 0)]] =
      [("A", 300), ("B", 100), ("C", 0)] := by decide
  have hsort : sortDesc (fun p : String × ℕ => p.2)
      [("A", 300), ("B", 100), ("C", 0)] =
      [("A", 300), ("B", 100), ("C", 0)] := by decide
  have hsum : (([("A", 300), ("B", 100), ("C", 0)] :
      List (String × ℕ)).map Prod.snd).sum = 400 := by decide
  simp only [get_language_stats_core, hacc, hsort, hsum]
  rw [if_neg (by norm_num)]
  simp only [List.map_cons, List.map_nil]
  norm_num

/-- Summing the mapped percentages is the summed byte count divided by the
total, scaled to 100. -/
theorem sum_map_pct (T : ℚ) (l : List (String × ℕ)) :
    (l.map (fun p => ((p.2 : ℚ) / T) * 100)).sum =
      (l.map (fun p => ((p.2 : ℕ) : ℚ))).sum / T * 100 := by
  induction l with
  | nil => simp
  | cons p rest ih =>
      simp only [List.map_cons, List.sum_cons, ih]
      ring

theorem sum_map_cast (l : List (String × ℕ)) :
    (l.map (fun p => ((p.2 : ℕ) : ℚ))).sum = (((l.map Prod.snd).sum : ℕ) : ℚ) := by
  induction l with
  | nil => simp
  | cons p rest ih => simp [ih]

/-- C5: whenever the accumulated grand total of byte sizes is positive, the
percentages returned by `get_language_stats` sum to exactly 100 (as the
exact rationals `100 * bytes / total`). -/
theorem language_stats_sum_100 (repos : List (List (String × ℕ)))
    (hpos : 0 < ((accumulate_languages repos).map Prod.snd).sum) :
    ((get_language_stats_core repos).map Prod.snd).sum = 100 := by
  have hT : ((accumulate_languages repos).map Prod.snd).sum ≠ 0 := hpos.ne'
  simp only [get_language_stats_core, if_neg hT, List.map_map]
  have hcomp :
      (Prod.snd ∘ fun p : String × ℕ =>
          ((p.1 : String),
            ((p.2 : ℚ) / (((accumulate_languages repos).map Prod.snd).sum : ℚ)) * 100)) =
        fun p : String × ℕ =>
          ((p.2 : ℚ) / (((accumulate_languages repos).map Prod.snd).sum : ℚ)) * 100 := by
    funext p
    rfl
  rw [hcomp, sum_map_pct]
  have hperm :=
    (sortDesc_perm (fun p : String × ℕ => p.2) (accumulate_languages repos)).map
      (fun p : String × ℕ => ((p.2 : ℕ) : ℚ))
  rw [hperm.sum_eq, sum_map_cast, div_self (by exact_mod_cast hT)]
  norm_num

/-- C5 witness: sizes A: 1, B: 3 — the two percentages (25 and 75) sum
to 100. -/
theorem language_stats_sum_100_witness :
    ((get_language_stats_core [[("A", 1), ("B", 3)]]).map Prod.snd).sum = 100 :=
  language_stats_sum_100 [[("A", 1), ("B", 3)]] (by decide)

/-- C6: the returned distribution is ordered non-increasingly by byte size
(equivalently, by percentage, as the total is fixed), and within every class
of tied byte sizes the sorted accumulator preserves the accumulator's
first-encounter order — ties are broken deterministically by discovery
order. -/
theorem language_stats_sorted_desc (repos : List (List (String × ℕ))) :
    (get_language_stats_core repos).Pairwise (fun p q => q.2 ≤ p.2) ∧
    ∀ v : ℕ,
      (sortDesc (fun p : String × ℕ => p.2) (accumulate_languages repos)).filter
          (fun p => decide (p.2 = v)) =
        (accumulate_languages repos).filter (fun p => decide (p.2 = v)) := by
  constructor
  · simp only [get_language_stats_core]
    by_cases hT : ((accumulate_languages repos).map Prod.snd).sum = 0
    · rw [if_pos hT]
      exact List.Pairwise.nil
    · rw [if_neg hT]
      have hTpos : (0 : ℚ) < (((accumulate_languages repos).map Prod.snd).sum : ℕ) := by
        exact_mod_cast Nat.pos_of_ne_zero hT
      refine List.pairwise_map.mpr ?_
      refine (sortDesc_pairwise_le (fun p : String × ℕ => p.2)
        (accumulate_languages repos)).imp ?_
      intro a b h
      show ((b.2 : ℚ) / _) * 100 ≤ ((a.2 : ℚ) / _) * 100
      refine mul_le_mul_of_nonneg_right ?_ (by norm_num)
      exact (div_le_div_right hTpos).mpr (by exact_mod_cast h)
  · intro v
    exact sortDesc_filter (fun p : String × ℕ => p.2) (accumulate_languages repos) v

/-! ## Dynamic payload model

`response.json()` yields a dynamically-typed value; `PyVal` models the JSON
shapes relevant to this payload (null, unbounded int, string, array,
object).  The exceptions the script can encounter are `KeyError` (missing
dict key), `TypeError` (operation on a wrongly-typed value) and
`ValueError` (from `datetime.strptime`). -/

inductive PyVal : Type
  | none
  | int (n : ℤ)
  | str (s : String)
  | list (xs : List PyVal)
  | dict (fields : List (String × PyVal))

inductive PyErr : Type
  | keyError
  | typeError
  | valueError

/-- Python subscript `v["k"]`: dict lookup, `KeyError` when the key is
absent, `TypeError` when `v` is not a dict (subscripting `None`, an int, a
string or a list with a string key raises `TypeError`). -/
def getItem : PyVal → String → Except PyErr PyVal
  | PyVal.dict fields, k =>
      match fields.find? (fun f => f.1 == k) with
      | some f => Except.ok f.2
      | Option.none => Except.error PyErr.keyError
  | _, _ => Except.error PyErr.typeError

/-- Python iteration `for x in v`: lists yield their elements, dicts their
keys, strings their characters; iterating `None` or an int raises
`TypeError`. -/
def toIter : PyVal → Except PyErr (List PyVal)
  | PyVal.list xs => Except.ok xs
  | PyVal.dict fields => Except.ok (fields.map (fun f => PyVal.str f.1))
  | PyVal.str s => Except.ok (s.data.map (fun c => PyVal.str (String.mk [c])))
  | _ => Except.error PyErr.typeError

/-- Python truthiness: `None`, `0`, and empty strings/lists/dicts are
falsy. -/
def pyTruthy : PyVal → Bool
  | PyVal.none => false
  | PyVal.int n => decide (n ≠ 0)
  | PyVal.str s => !s.isEmpty
  | PyVal.list xs => !xs.isEmpty
  | PyVal.dict fields => !fields.isEmpty

/-- `day["count"] == 0`: Python `==` between an int literal and an
arbitrary value never raises; it is `True` only for the int `0`. -/
def pyEqZero : PyVal → Bool
  | PyVal.int n => decide (n = 0)
  | _ => false

/-- `day["count"] > 0`: an ordered comparison; raises `TypeError` unless the
value is an int. -/
def pyGtZero : PyVal → Except PyErr Bool
  | PyVal.int n => Except.ok (decide (0 < n))
  | _ => Except.error PyErr.typeError

/-! ### `datetime.strptime(day["date"], "%Y-%m-%d").date()` -/

def splitDash : List Char → List (List Char)
  | [] => [[]]
  | c :: rest =>
    let r := splitDash rest
    if c = '-' then [] :: r
    else
      match r with
      | [] => [[c]]
      | g :: gs => (c :: g) :: gs

def digitsToNat (l : List Char) : ℕ :=
  l.foldl (fun n c => 10 * n + (c.toNat - 48)) 0

def isLeap (y : ℕ) : Bool :=
  (y % 4 == 0) && (!(y % 100 == 0) || (y % 400 == 0))

def monthLen (leap : Bool) (m : ℕ) : ℕ :=
  if m = 1 then 31
  else if m = 2 then (if leap then 29 else 28)
  else if m = 3 then 31
  else if m = 4 then 30
  else if m = 5 then 31
  else if m = 6 then 30
  else if m = 7 then 31
  else if m = 8 then 31
  else if m = 9 then 30
  else if m = 10 then 31
  else if m = 11 then 30
  else 31

def daysBeforeMonth (leap : Bool) (m : ℕ) : ℕ :=
  (List.range (m - 1)).foldl (fun a k => a + monthLen leap (k + 1)) 0

/-- Proleptic-Gregorian day ordinal of a calendar date, as in
`datetime.date.toordinal` (day 1 = January 1 of year 1). -/
def toOrdinal (y m d : ℕ) : ℤ :=
  365 * ((y : ℤ) - 1) + ((y : ℤ) - 1) / 4 - ((y : ℤ) - 1) / 100
    + ((y : ℤ) - 1) / 400 + (daysBeforeMonth (isLeap y) m : ℤ) + (d : ℤ)

/-- Model of `datetime.strptime(s, "%Y-%m-%d").date()`: `%Y` matches exactly
four digits, `%m` and `%d` one or two digits, the fields are separated by
literal hyphens with no text left over, and the date must be a valid
`datetime.date` (month 1-12, day within the month, year at least 1).  Any
mismatch raises `ValueError`; success yields the day ordinal. -/
def parseDateChars (l : List Char) : Except PyErr ℤ :=
  match splitDash l with
  | [ys, ms, ds] =>
    if ys.length = 4 ∧ ys.all Char.isDigit
        ∧ 1 ≤ ms.length ∧ ms.length ≤ 2 ∧ ms.all Char.isDigit
        ∧ 1 ≤ ds.length ∧ ds.length ≤ 2 ∧ ds.all Char.isDigit then
      let y := digitsToNat ys
      let m := digitsToNat ms
      let d := digitsToNat ds
      if 1 ≤ y ∧ 1 ≤ m ∧ m ≤ 12 ∧ 1 ≤ d ∧ d ≤ monthLen (isLeap y) m then
        Except.ok (toOrdinal y m d)
      else Except.error PyErr.valueError
    else Except.error PyErr.valueError
  | _ => Except.error PyErr.valueError

/-- `strptime` requires a string argument (`TypeError` otherwise). -/
def strptimeDate : PyVal → Except PyErr ℤ
  | PyVal.str s => parseDateChars s.data
  | _ => Except.error PyErr.typeError

/-! ### `calculate_streak` on the dynamic payload (lines 72-112) -/

/-- Lines 84-87: build one `all_days` entry.  The dict literal evaluates the
`"date"` value (lookup + parse) before the `"count"` value (lookup); the
count is stored unconverted and only examined by the loop's comparisons. -/
def collectDay (day : PyVal) : Except PyErr (ℤ × PyVal) := do
  let dateVal ← getItem day "date"
  let d ← strptimeDate dateVal
  let c ← getItem day "contributionCount"
  Except.ok (d, c)

def collectDays : List PyVal → Except PyErr (List (ℤ × PyVal))
  | [] => Except.ok []
  | day :: rest => do
    let p ← collectDay day
    let ps ← collectDays rest
    Except.ok (p :: ps)

/-- Lines 82-87: the nested `for week in calendar["weeks"]` /
`for day in week["contributionDays"]` loops. -/
def collectWeeks : List PyVal → Except PyErr (List (ℤ × PyVal))
  | [] => Except.ok []
  | w :: rest => do
    let daysVal ← getItem w "contributionDays"
    let ds ← toIter daysVal
    let ps ← collectDays ds
    let qs ← collectWeeks rest
    Except.ok (ps ++ qs)

/-- The enumerated loop of lines 94-106, with the counts still dynamic:
`== 0` never raises, `> 0` raises `TypeError` on a non-int count. -/
def streakLoopPy (today : ℤ) : ℕ → List (ℤ × PyVal) → Except PyErr ℤ
  | _, [] => Except.ok 0
  | i, (d, c) :: rest =>
    if i = 0 ∧ d = today ∧ pyEqZero c then streakLoopPy today (i + 1) rest
    else if d = today - i ∨ (i = 0 ∧ d = today - 1) then
      match pyGtZero c with
      | Except.error e => Except.error e
      | Except.ok true => (streakLoopPy today (i + 1) rest).map (fun s => 1 + s)
      | Except.ok false => Except.ok 0
    else if d < today - i then Except.ok 0
    else streakLoopPy today (i + 1) rest

/-- The `try:` body of `calculate_streak` (lines 77-108): the chain of field
lookups, the day collection, the sort, the loop, and the
`totalContributions` passthrough (returned unconverted, exactly as looked
up). -/
def streak_body (contribution_data : PyVal) (today : ℤ) :
    Except PyErr (ℤ × PyVal) := do
  let d1 ← getItem contribution_data "data"
  let d2 ← getItem d1 "user"
  let d3 ← getItem d2 "contributionsCollection"
  let calendar ← getItem d3 "contributionCalendar"
  let total_contributions ← getItem calendar "totalContributions"
  let weeksVal ← getItem calendar "weeks"
  let weeks ← toIter weeksVal
  let all_days ← collectWeeks weeks
  let streak ← streakLoopPy today 0 (sortDesc (fun p : ℤ × PyVal => p.1) all_days)
  Except.ok (streak, total_contributions)

/-- `calculate_streak` (lines 72-112): a falsy payload
(`if not contribution_data:`) returns `(0, 0)` at once; `KeyError` and
`TypeError` from the body are caught by `except (KeyError, TypeError)` and
degrade to `(0, 0)` (after printing a diagnostic — printing is I/O and is
not part of the pure embedding); anything else, i.e. `ValueError` from
`strptime`, propagates to the caller. -/
def calculate_streak (contribution_data : PyVal) (today : ℤ) :
    Except PyErr (ℤ × PyVal) :=
  if pyTruthy contribution_data then
    match streak_body contribution_data today with
    | Except.ok r => Except.ok r
    | Except.error PyErr.keyError => Except.ok (0, PyVal.int 0)
    | Except.error PyErr.typeError => Except.ok (0, PyVal.int 0)
    | Except.error PyErr.valueError => Except.error PyErr.valueError
  else Except.ok (0, PyVal.int 0)

/-- C7: for a `None` payload, and for every payload on which the body's
field lookups fail structurally — a `KeyError` from a missing expected
field or a `TypeError` from a wrongly-shaped one — `calculate_streak`
returns `(0, 0)` instead of raising to the caller (the diagnostic print in
the handler is I/O and outside the pure embedding). -/
theorem calculate_streak_degrades_on_structural_failure
    (p : PyVal) (today : ℤ)
    (h : p = PyVal.none ∨
      streak_body p today = Except.error PyErr.keyError ∨
      streak_body p today = Except.error PyErr.typeError) :
    calculate_streak p today = Except.ok (0, PyVal.int 0) := by
  rcases h with h | h | h
  · subst h
    rfl
  · by_cases ht : pyTruthy p
    · rw [calculate_streak, if_pos ht, h]
    · rw [calculate_streak, if_neg ht]
  · by_cases ht : pyTruthy p
    · rw [calculate_streak, if_pos ht, h]
    · rw [calculate_streak, if_neg ht]

/-- C7 witness: the truthy payload `{"data": None}` has the wrong shape one
level down — `None["user"]` raises `TypeError` — and `calculate_streak`
degrades to `(0, 0)`. -/
theorem calculate_streak_degrades_witness :
    calculate_streak (PyVal.dict [("data", PyVal.none)]) 0 =
      Except.ok (0, PyVal.int 0) :=
  calculate_streak_degrades_on_structural_failure
    (PyVal.dict [("data", PyVal.none)]) 0 (Or.inr (Or.inr rfl))

/-- A structurally complete contribution payload (all fields expected by
`calculate_streak` present, with the expected container shapes) whose one
recorded day has the malformed date string `"bad-date"`. -/
def payload_malformed_date : PyVal :=
  PyVal.dict [("data", PyVal.dict [("user", PyVal.dict
    [("contributionsCollection", PyVal.dict
      [("contributionCalendar", PyVal.dict
        [("totalContributions", PyVal.int 5),
         ("weeks", PyVal.list [PyVal.dict
           [("contributionDays", PyVal.list
             [PyVal.dict [("date", PyVal.str "bad-date"),
                          ("contributionCount", PyVal.int 1)]])]])])])])])]

/-- The same payload with the date well-formed. -/
def payload_wellformed_date : PyVal :=
  PyVal.dict [("data", PyVal.dict [("user", PyVal.dict
    [("contributionsCollection", PyVal.dict
      [("contributionCalendar", PyVal.dict
        [("totalContributions", PyVal.int 5),
         ("weeks", PyVal.list [PyVal.dict
           [("contributionDays", PyVal.list
             [PyVal.dict [("date", PyVal.str "2024-03-05"),
                          ("contributionCount", PyVal.int 1)]])]])])])])])]

/-- C8: `except (KeyError, TypeError)` does not cover `ValueError`.  On a
structurally complete payload whose date string is not in `YYYY-MM-DD`
form, `calculate_streak` raises `ValueError` (from `datetime.strptime`)
instead of degrading to `(0, 0)`; the identical payload with a well-formed
date succeeds, showing the failure is the date format and not the
structure. -/
theorem calculate_streak_valueerror_uncaught :
    calculate_streak payload_malformed_date (toOrdinal 2024 3 5) =
      Except.error PyErr.valueError ∧
    calculate_streak payload_wellformed_date (toOrdinal 2024 3 5) =
      Except.ok (1, PyVal.int 5) := by
  constructor
  · rfl
  · rfl

/-! ## Rendering (`generate_streak_section`, `generate_languages_section`) -/

/-- `str(v)` as used by the f-strings; container reprs are abbreviated
(they never occur in well-formed payloads and no claim depends on them). -/
def pyStr : PyVal → String
  | PyVal.none => "None"
  | PyVal.int n => toString n
  | PyVal.str s => s
  | PyVal.list _ => "[...]"
  | PyVal.dict _ => "\x7b...\x7d"

/-- `generate_streak_section` (lines 147-153). -/
def generate_streak_section (streak : ℤ) (total_contributions : PyVal) : String :=
  "**" ++ toString streak ++
    "** days consecutive coding\n\nTotal contributions this year: **" ++
    pyStr total_contributions ++ "**"

/-- One-decimal fixed-point rendering of a non-negative percentage: round
half to even on the tenths, as Python's float formatting does (the
binary-float representation error of the underlying double is not
modelled). -/
def fmtPct (q : ℚ) : String :=
  let t : ℚ := q * 10
  let fl : ℤ := Int.floor t
  let n : ℤ :=
    if t - fl < 1 / 2 then fl
    else if 1 / 2 < t - fl then fl + 1
    else if fl % 2 = 0 then fl else fl + 1
  toString (n / 10) ++ "." ++ toString (n % 10)

/-- `generate_languages_section` (lines 156-166): a placeholder for an empty
stats dict, otherwise a two-column table in the dict's iteration order. -/
def generate_languages_section (language_stats : List (PyVal × ℚ)) : String :=
  if language_stats.isEmpty then "No language data available"
  else
    String.intercalate "\n"
      (["| Language | Usage |", "|----------|-------|"] ++
        language_stats.map (fun p => "| " ++ pyStr p.1 ++ " | " ++ fmtPct p.2 ++ "% |"))

/-! ## `get_language_stats` on the dynamic payload (lines 115-144) -/

/-- Dict keys must be hashable; lists and dicts are not. -/
def pyHashable : PyVal → Bool
  | PyVal.list _ => false
  | PyVal.dict _ => false
  | _ => true

/-- Adding a value to the `defaultdict(int)` entry requires an int
(`0 + v` raises `TypeError` otherwise). -/
def pyToInt : PyVal → Except PyErr ℤ
  | PyVal.int n => Except.ok n
  | _ => Except.error PyErr.typeError

/-- Equality of hashable dict keys. -/
def pyKeyEq : PyVal → PyVal → Bool
  | PyVal.none, PyVal.none => true
  | PyVal.int a, PyVal.int b => a == b
  | PyVal.str a, PyVal.str b => a == b
  | _, _ => false

def addSizePy : List (PyVal × ℤ) → PyVal → ℤ → List (PyVal × ℤ)
  | [], name, size => [(name, size)]
  | (m, t) :: rest, name, size =>
    if pyKeyEq m name then (m, t + size) :: rest
    else (m, t) :: addSizePy rest name size

/-- `language_bytes[lang["node"]["name"]] += lang["size"]` over one
repository's edge list: Python evaluates the key (and hashes it) before the
right-hand side. -/
def accumulate_edges :
    List PyVal → List (PyVal × ℤ) → Except PyErr (List (PyVal × ℤ))
  | [], acc => Except.ok acc
  | lang :: rest, acc => do
    let node ← getItem lang "node"
    let name ← getItem node "name"
    if pyHashable name then
      let sizeVal ← getItem lang "size"
      let size ← pyToInt sizeVal
      accumulate_edges rest (addSizePy acc name size)
    else Except.error PyErr.typeError

/-- Lines 124-127: `for repo in repos:` with the
`if repo["languages"]["edges"]:` truthiness guard. -/
def accumulate_repos :
    List PyVal → List (PyVal × ℤ) → Except PyErr (List (PyVal × ℤ))
  | [], acc => Except.ok acc
  | repo :: rest, acc => do
    let langs ← getItem repo "languages"
    let edgesVal ← getItem langs "edges"
    if pyTruthy edgesVal then do
      let edges ← toIter edgesVal
      let acc2 ← accumulate_edges edges acc
      accumulate_repos rest acc2
    else accumulate_repos rest acc

/-- The `try:` body of `get_language_stats` (lines 120-140). -/
def lang_body (contribution_data : PyVal) : Except PyErr (List (PyVal × ℚ)) := do
  let d1 ← getItem contribution_data "data"
  let d2 ← getItem d1 "user"
  let d3 ← getItem d2 "repositories"
  let reposVal ← getItem d3 "nodes"
  let repos ← toIter reposVal
  let language_bytes ← accumulate_repos repos []
  let total_bytes := (language_bytes.map Prod.snd).sum
  if total_bytes = 0 then Except.ok []
  else
    Except.ok ((sortDesc (fun p : PyVal × ℤ => p.2) language_bytes).map
      (fun p => (p.1, ((p.2 : ℚ) / (total_bytes : ℚ)) * 100)))

/-- `get_language_stats` (lines 115-144): falsy payload → `{}`; `KeyError`
and `TypeError` degrade to `{}`; the handler structure mirrors the source
(no `ValueError` can arise in this body). -/
def get_language_stats (contribution_data : PyVal) :
    Except PyErr (List (PyVal × ℚ)) :=
  if pyTruthy contribution_data then
    match lang_body contribution_data with
    | Except.ok r => Except.ok r
    | Except.error PyErr.keyError => Except.ok []
    | Except.error PyErr.typeError => Except.ok []
    | Except.error PyErr.valueError => Except.error PyErr.valueError
  else Except.ok []

/-! ## `update_readme` (lines 169-200)

Each `re.sub` pattern has the form `A.*?B` with literal marker strings `A`
and `B` (the markers contain no regex metacharacters) and a fixed
replacement (which contains no backslash escapes, so `re.sub`'s
replacement-escape processing is the identity).  A non-greedy match at a
position is `A` followed by the nearest later occurrence of `B`; without
`re.DOTALL` (the `<sub>` pattern) the gap may not contain a newline.
`re.sub` replaces every non-overlapping match, scanning left to right and
resuming after each replacement. -/

/-- Characters consumed from `s` by the shortest `.*?END` match (including
`END`); `Option.none` when none exists.  `dotall` decides whether the gap
may cross newlines. -/
def findEnd (dotall : Bool) (endM : List Char) : List Char → Option ℕ
  | [] => if endM.isPrefixOf ([] : List Char) then some endM.length else Option.none
  | c :: rest =>
    if endM.isPrefixOf (c :: rest) then some endM.length
    else if !dotall && c = '\n' then Option.none
    else (findEnd dotall endM rest).map (fun k => k + 1)

/-- `re.sub(START + ".*?" + END, repl, s)` for non-empty literal markers:
replace every non-overlapping non-greedy match left to right.  (With an
empty `START` this definition leaves `s` unchanged; every marker in the
source is non-empty.) -/
def subAll (dotall : Bool) (startM endM repl : List Char) : List Char → List Char
  | [] => []
  | c :: rest =>
    if h : startM ≠ [] ∧ startM.isPrefixOf (c :: rest) then
      match findEnd dotall endM ((c :: rest).drop startM.length) with
      | some k =>
          repl ++ subAll dotall startM endM repl ((c :: rest).drop (startM.length + k))
      | Option.none => c :: subAll dotall startM endM repl rest
    else c :: subAll dotall startM endM repl rest
termination_by s => s.length
decreasing_by
  · have hl : 0 < startM.length := List.length_pos.mpr h.1
    simp only [List.length_drop, List.length_cons]
    omega
  · simp only [List.length_cons]
    omega
  · simp only [List.length_cons]
    omega

/-- Whether `START.*?END` matches anywhere in `s`. -/
def hasMatch (dotall : Bool) (startM endM : List Char) : List Char → Bool
  | [] => false
  | c :: rest =>
    (decide (startM ≠ []) && startM.isPrefixOf (c :: rest)
        && (findEnd dotall endM ((c :: rest).drop startM.length)).isSome)
      || hasMatch dotall startM endM rest

/-- When the pattern matches nowhere, the substitution is the identity. -/
theorem subAll_of_not_hasMatch (dotall : Bool) (startM endM repl : List Char) :
    ∀ s : List Char, hasMatch dotall startM endM s = false →
      subAll dotall startM endM repl s = s := by
  intro s
  induction s with
  | nil => intro _; rw [subAll]
  | cons c rest ih =>
      intro h
      rw [hasMatch, Bool.or_eq_false_iff] at h
      by_cases hc : startM ≠ [] ∧ startM.isPrefixOf (c :: rest)
      · cases hfe : findEnd dotall endM ((c :: rest).drop startM.length) with
        | none =>
            rw [subAll, dif_pos hc]
            simp only [hfe]
            rw [ih h.2]
        | some k =>
            exfalso
            have h1 := h.1
            rw [decide_eq_true (by exact hc.1), hc.2, hfe] at h1
            simp at h1
      · rw [subAll, dif_neg hc, ih h.2]

/-- The first `re.sub` (lines 176-181): the streak region, with
`re.DOTALL`. -/
def streakSub (streak_section : String) (s : List Char) : List Char :=
  subAll true "<!--START_SECTION:streak-->".data "<!--END_SECTION:streak-->".data
    ("<!--START_SECTION:streak-->\n".data ++ streak_section.data ++
      "\n<!--END_SECTION:streak-->".data) s

/-- The second `re.sub` (lines 183-188): the languages region, with
`re.DOTALL`. -/
def languagesSub (languages_section : String) (s : List Char) : List Char :=
  subAll true "<!--START_SECTION:languages-->".data
    "<!--END_SECTION:languages-->".data
    ("<!--START_SECTION:languages-->\n".data ++ languages_section.data ++
      "\n<!--END_SECTION:languages-->".data) s

/-- The third `re.sub` (lines 190-195): the last-updated line, single-line
(no `re.DOTALL`). -/
def timestampSub (now : String) (s : List Char) : List Char :=
  subAll false "<sub>Last updated:".data "</sub>".data
    ("<sub>Last updated: ".data ++ now.data ++ "</sub>".data) s

/-- `update_readme` (lines 169-200) as a pure transformation of the README
text; the file read/write and the success print are I/O, and the formatted
timestamp is the `now` parameter. -/
def update_readme_content (streak_section languages_section now content : String) :
    String :=
  String.mk (timestampSub now
    (languagesSub languages_section (streakSub streak_section content.data)))

def streakMarkersMatch (s : List Char) : Bool :=
  hasMatch true "<!--START_SECTION:streak-->".data "<!--END_SECTION:streak-->".data s

def languagesMarkersMatch (s : List Char) : Bool :=
  hasMatch true "<!--START_SECTION:languages-->".data
    "<!--END_SECTION:languages-->".data s

def timestampMarkersMatch (s : List Char) : Bool :=
  hasMatch false "<sub>Last updated:".data "</sub>".data s

/-- C10: the three regions are rewritten independently, and a region whose
markers are absent (its pattern matches nowhere at the point its `re.sub`
runs) is left untouched: the final document equals the one produced by the
other substitutions alone.  Every function involved is total, so no
exception is possible. -/
theorem update_readme_skips_absent_regions
    (streak_section languages_section now content : String) :
    (streakMarkersMatch content.data = false →
      update_readme_content streak_section languages_section now content =
        String.mk (timestampSub now (languagesSub languages_section content.data))) ∧
    (languagesMarkersMatch (streakSub streak_section content.data) = false →
      update_readme_content streak_section languages_section now content =
        String.mk (timestampSub now (streakSub streak_section content.data))) ∧
    (timestampMarkersMatch
        (languagesSub languages_section (streakSub streak_section content.data)) =
          false →
      update_readme_content streak_section languages_section now content =
        String.mk (languagesSub languages_section
          (streakSub streak_section content.data))) := by
  refine ⟨?_, ?_, ?_⟩
  · intro h
    rw [update_readme_content, streakSub, subAll_of_not_hasMatch _ _ _ _ _ h]
  · intro h
    rw [update_readme_content, languagesSub, subAll_of_not_hasMatch _ _ _ _ _ h]
  · intro h
    rw [update_readme_content, timestampSub, subAll_of_not_hasMatch _ _ _ _ _ h]

/-- C10 witness: a document with the languages markers but no streak region
markers; the streak substitution is the identity on it. -/
theorem update_readme_skips_absent_regions_witness :
    update_readme_content "S" "L" "T"
        "# Hi\n<!--START_SECTION:languages-->x<!--END_SECTION:languages-->" =
      String.mk (timestampSub "T" (languagesSub "L"
        "# Hi\n<!--START_SECTION:languages-->x<!--END_SECTION:languages-->".data)) :=
  (update_readme_skips_absent_regions "S" "L" "T"
    "# Hi\n<!--START_SECTION:languages-->x<!--END_SECTION:languages-->").1 (by rfl)

/-! ## Fetch and driver (`get_contribution_data`, `main`) -/

/-- `get_contribution_data` (lines 24-69): the POST itself is an external
effect; what the function does with the response is the status check — on a
non-200 status it prints the error and returns `None`, otherwise it returns
the parsed JSON body. -/
def get_contribution_data (status_code : ℤ) (body : PyVal) : Option PyVal :=
  if status_code ≠ 200 then Option.none else some body

/-- `main` (lines 203-226) as a function from the fetch outcome and the
current README text to the optional new README text; `Option.none` means
the run ended without writing the file.  `if not data:` also aborts on a
falsy payload; otherwise the two computations run (an uncaught exception
there propagates, also leaving the file unwritten) and the rewritten
document is produced. -/
def main_run (status_code : ℤ) (body : PyVal) (today : ℤ)
    (now readme : String) : Except PyErr (Option String) :=
  match get_contribution_data status_code body with
  | Option.none => Except.ok Option.none
  | some data =>
    if pyTruthy data then do
      let st ← calculate_streak data today
      let language_stats ← get_language_stats data
      Except.ok (some (update_readme_content
        (generate_streak_section st.1 st.2)
        (generate_languages_section language_stats) now readme))
    else Except.ok Option.none

/-- C9: a non-success fetch status makes `get_contribution_data` return
`None`, and the run then terminates with no README write and no
exception — no code path reaches `update_readme`. -/
theorem fetch_failure_writes_nothing (status_code : ℤ) (body : PyVal)
    (today : ℤ) (now readme : String) (h : status_code ≠ 200) :
    get_contribution_data status_code body = Option.none ∧
    main_run status_code body today now readme = Except.ok Option.none := by
  have h1 : get_contribution_data status_code body = Option.none := by
    rw [get_contribution_data, if_pos h]
  refine ⟨h1, ?_⟩
  rw [main_run, h1]

/-- C9 witness: an HTTP 500 response: no document is produced. -/
theorem fetch_failure_writes_nothing_witness :
    get_contribution_data 500 (PyVal.dict []) = Option.none ∧
    main_run 500 (PyVal.dict []) 0 "now" "# readme" = Except.ok Option.none :=
  fetch_failure_writes_nothing 500 (PyVal.dict []) 0 "now" "# readme" (by decide)
